import Mathlib

/- Formal model of the quote application in src/src/App.js.

   Strings are modelled as lists of characters (`Str`).  JavaScript library
   behaviour that is external to the repository (JSON.parse, Papa.parse) is
   modelled as explicit inputs: a `FileContent` record carries the outcome of
   each library call on the decoded file text. -/

namespace QuoteApp

/-- Strings as character lists, so that the JS string operations used by the
app (trim, includes, endsWith, toLowerCase) can be modelled structurally. -/
abbrev Str := List Char

/-- ASCII portion of the JavaScript whitespace class removed by
`String.prototype.trim`; the claims only exercise these characters. -/
def isWs (c : Char) : Bool :=
  c == ' ' || c == '\t' || c == '\n' || c == '\r' || c == '\x0B' || c == '\x0C'

/-- JS `String.prototype.trim`: drop whitespace from both ends. -/
def trim (s : Str) : Str :=
  (s.dropWhile isWs).rdropWhile isWs

/-- Helper for JS `String.prototype.includes`/`endsWith`: does the first list
start the second? -/
def isPrefixL : Str → Str → Bool
  | [], _ => true
  | _ :: _, [] => false
  | a :: as, b :: bs => a == b && isPrefixL as bs

/-- JS `hay.includes(needle)`: contiguous substring test. -/
def strContains (needle : Str) : Str → Bool
  | [] => isPrefixL needle []
  | c :: t => isPrefixL needle (c :: t) || strContains needle t

/-- JS `s.endsWith(suf)`. -/
def endsWithL (s suf : Str) : Bool :=
  isPrefixL suf.reverse s.reverse

/-- JS `s.toLowerCase()` restricted to the ASCII case mapping, which is all the
extension dispatch in `handleFileChange` relies on. -/
def toLowerStr (s : Str) : Str :=
  s.map Char.toLower

/-- A quote record `{ text, author }` as held in React state. -/
structure Quote where
  text : Str
  author : Str
deriving DecidableEq, Repr

/-- The sentinel author `"مجهول"` ("unknown") used throughout App.js. -/
def unknownAuthor : Str := "مجهول".data

/-- The search haystack built in App.js line 70:
`q.text + " " + (q.author || "")`.  Since `author` is always a string in our
model, `q.author || ""` is `q.author` itself (empty stays empty). -/
def quoteHaystack (q : Quote) : Str :=
  q.text ++ ' ' :: q.author

/-- The filter predicate of App.js lines 69-72: substring test of the trimmed
query against the haystack. -/
def matchesQuery (query : Str) (q : Quote) : Bool :=
  strContains (trim query) (quoteHaystack q)

/-- `filtered` from App.js lines 69-72: `quotes.filter(...)`. -/
def filtered (query : Str) (quotes : List Quote) : List Quote :=
  quotes.filter (matchesQuery query)

/- Basic lemmas about the string primitives. -/

theorem isPrefixL_nil (l : Str) : isPrefixL [] l = true := by
  cases l <;> rfl

theorem strContains_nil (hay : Str) : strContains [] hay = true := by
  cases hay <;> simp [strContains, isPrefixL_nil]

/-- `dropWhile` fixed points are inherited by prefixes. -/
theorem dropWhile_eq_self_of_starts {p : Char → Bool} {u v : Str}
    (hu : u.dropWhile p = u) (hpre : v <+: u) : v.dropWhile p = v := by
  rw [List.dropWhile_eq_self_iff] at hu ⊢
  intro hv
  obtain ⟨t, rfl⟩ := hpre
  have hlen : 0 < (v ++ t).length := by
    rw [List.length_append]
    omega
  have := hu hlen
  have hget : (v ++ t).get ⟨0, hlen⟩ = v.get ⟨0, hv⟩ := by
    rw [List.get_eq_getElem, List.get_eq_getElem, List.getElem_append]
    simp [hv]
  rwa [hget] at this

/-- JS trim is idempotent. -/
theorem trim_idempotent (s : Str) : trim (trim s) = trim s := by
  unfold trim
  rw [dropWhile_eq_self_of_starts (List.dropWhile_idempotent isWs s)
        (List.rdropWhile_prefix isWs (s.dropWhile isWs)),
      List.rdropWhile_idempotent]

/-- A whitespace-only string trims to the empty string. -/
theorem trim_eq_nil_of_all_ws {s : Str} (h : ∀ c ∈ s, isWs c = true) :
    trim s = [] := by
  unfold trim
  rw [List.dropWhile_eq_nil_iff.mpr h]
  simp [List.rdropWhile]

/- ===== JSON values and the JSON import path (App.js lines 123-135) ===== -/

/-- JSON values as produced by `JSON.parse` (numbers as integers: no claim
exercises fractional numeric fields). -/
inductive Json where
  | null : Json
  | bool (b : Bool) : Json
  | num (n : Int) : Json
  | str (s : Str) : Json
  | arr (xs : List Json) : Json
  | obj (fields : List (Str × Json)) : Json

/-- JS falsiness of a JSON value (`null`, `false`, `0`, `""`). -/
def jsFalsy : Json → Bool
  | .null => true
  | .bool b => !b
  | .num n => n == 0
  | .str s => s.isEmpty
  | _ => false

mutual

/-- JS `.toString()` on a JSON value: strings unchanged, numbers in decimal,
arrays joined with commas (null elements render empty), objects as
`"[object Object]"`. -/
def jsToString : Json → Str
  | .null => "null".data
  | .bool b => if b then "true".data else "false".data
  | .num n => (toString n).data
  | .str s => s
  | .arr xs => jsArrayToString xs
  | .obj _ => "[object Object]".data

/-- JS `Array.prototype.toString` = `join(",")`, where `null` elements
contribute the empty string. -/
def jsArrayToString : List Json → Str
  | [] => []
  | [.null] => []
  | [x] => jsToString x
  | .null :: y :: t => ',' :: jsArrayToString (y :: t)
  | x :: y :: t => jsToString x ++ ',' :: jsArrayToString (y :: t)

end

/-- Field lookup in a JS object (later duplicate keys win, as after
`JSON.parse`). -/
def objField (fields : List (Str × Json)) (k : Str) : Option Json :=
  (fields.reverse.find? (fun p => p.1 == k)).map (·.2)

/-- Property access `i.k` on a non-null JSON value: objects look up the
field, every other value yields `undefined` (modelled as `none`). -/
def jsField : Json → Str → Option Json
  | .obj fs, k => objField fs k
  | _, _ => none

/-- JS `v || d` applied to a possibly-undefined property value `v`, with a
string default `d`: missing or falsy values are replaced by `d`. -/
def jsOrD (v : Option Json) (d : Str) : Json :=
  match v with
  | none => .str d
  | some x => if jsFalsy x then .str d else x

def textKey : Str := "text".data
def authorKey : Str := "author".data

/-- One step of the `data.map` in App.js lines 127-130:
`{ text: (i.text || "").toString().trim(),
   author: (i.author || "مجهول").toString().trim() }`.
The property accesses throw a TypeError (propagating to the surrounding
catch) exactly when `i` is `null`; on every other value they yield the field
or `undefined`. -/
def coerceJsonItem : Json → Except Unit Quote
  | .null => .error ()
  | i => .ok { text := trim (jsToString (jsOrD (jsField i textKey) [])),
               author := trim (jsToString (jsOrD (jsField i authorKey) unknownAuthor)) }

/-- `data.map(...)` over the parsed array: left to right, aborting on the
first thrown exception. -/
def coerceItems : List Json → Except Unit (List Quote)
  | [] => .ok []
  | i :: t => do
      let q ← coerceJsonItem i
      let l ← coerceItems t
      pure (q :: l)

/-- User-facing message `"ملف JSON غير صالح."` (invalid JSON file). -/
def jsonInvalidMsg : Str := "ملف JSON غير صالح.".data

/-- User-facing message `"الرجاء رفع ملف CSV أو JSON فقط."` (unsupported file
type). -/
def unsupportedMsg : Str := "الرجاء رفع ملف CSV أو JSON فقط.".data

/-- Outcome of one `handleFileChange` run: the values stored by
`setImportError` and `setPreviewList`. -/
structure ImportOutcome where
  importError : Str
  previewList : List Quote
deriving DecidableEq, Repr

/-- The JSON branch of `handleFileChange` (App.js lines 123-135), taking the
outcome of `JSON.parse` (`none` models a parse exception). -/
def importJson : Option Json → ImportOutcome
  | none => ⟨jsonInvalidMsg, []⟩
  | some (.arr items) =>
      match coerceItems items with
      | .ok l => ⟨[], l.filter (fun q => !q.text.isEmpty)⟩
      | .error _ => ⟨jsonInvalidMsg, []⟩
  | some _ => ⟨jsonInvalidMsg, []⟩

/- ===== CSV import path (App.js lines 136-145) ===== -/

/-- One step of the row mapping in App.js lines 139-143:
`t = row[0] || ""`, `a = row[1] || "مجهول"`, then toString (identity on
strings) and trim.  Papa fields are strings, so falsy means empty. -/
def coerceCsvRow (row : List Str) : Quote :=
  { text := trim ((row.get? 0).getD []),
    author := trim (match row.get? 1 with
                    | none => unknownAuthor
                    | some a => if a.isEmpty then unknownAuthor else a) }

/-- The CSV branch of `handleFileChange`: map the rows delivered by
`Papa.parse(text, { header: false }).data`, then drop empty-text rows. -/
def importCsv (rows : List (List Str)) : ImportOutcome :=
  ⟨[], (rows.map coerceCsvRow).filter (fun q => !q.text.isEmpty)⟩

/-- The decoded file content, presented through the behaviour of the two
external parsing libraries on it: `jsonParse` is the result of
`JSON.parse(text)` (`none` when it throws) and `csvParse` is
`Papa.parse(text, { header: false }).data`. -/
structure FileContent where
  jsonParse : Option Json
  csvParse : List (List Str)

def jsonExt : Str := ".json".data
def csvExt : Str := ".csv".data

/-- `handleFileChange` (App.js lines 115-153): lowercase the file name
(`const name = file.name.toLowerCase()`), dispatch on the extension, and
produce the import error / preview list pair.  The function is total: no
exception escapes this boundary. -/
def handleFileChange (fileName : Str) (content : FileContent) : ImportOutcome :=
  if endsWithL (toLowerStr fileName) jsonExt then importJson content.jsonParse
  else if endsWithL (toLowerStr fileName) csvExt then importCsv content.csvParse
  else ⟨unsupportedMsg, []⟩

/- ===== Preview/commit workflow (App.js lines 156-194) ===== -/

/-- The React state touched by the preview/commit workflow. -/
structure AppState where
  quotes : List Quote
  previewList : List Quote
  loading : Bool
deriving DecidableEq, Repr

/-- The spec's workflow states, read off the React state: Empty when no
pending batch, Previewing otherwise. -/
inductive WState where
  | empty : WState
  | previewing : WState
deriving DecidableEq, Repr

def workflowState (s : AppState) : WState :=
  if s.previewList.isEmpty then .empty else .previewing

/-- The spec's `startPreview(candidates)` is `setPreviewList(parsed)` in
`handleFileChange`: it replaces the pending batch. -/
def startPreview (s : AppState) (candidates : List Quote) : AppState :=
  { s with previewList := candidates }

/-- A row of the remote `quotes` table as returned by the post-insert select
(`author` may be missing/null in the database). -/
structure RemoteRow where
  text : Str
  author : Option Str
deriving DecidableEq, Repr

/-- The row coercion `d => ({ text: d.text, author: d.author || "مجهول" })`
used on fetched data (App.js lines 178-180). -/
def rowToQuote (r : RemoteRow) : Quote :=
  { text := r.text,
    author := match r.author with
              | none => unknownAuthor
              | some a => if a.isEmpty then unknownAuthor else a }

/-- Behaviour of the remote persistence collaborator during one
`confirmImport` run: the insert returns an error result, throws, or succeeds;
on success `refetch` is the `data` of the follow-up select (`none` models a
null `data`, which makes `data.map` throw). -/
inductive InsertOutcome where
  | ok (refetch : Option (List RemoteRow)) : InsertOutcome
  | errResult : InsertOutcome
  | threw : InsertOutcome

/-- Alert `"لا توجد اقتباسات للاستيراد."` (nothing to import). -/
def nothingToImportMsg : Str := "لا توجد اقتباسات للاستيراد.".data

/-- Alert `"حدث خطأ أثناء حفظ الاقتباسات في Supabase."` (save failed). -/
def saveErrorMsg : Str := "حدث خطأ أثناء حفظ الاقتباسات في Supabase.".data

/-- Alert `"خطأ أثناء الاتصال بقاعدة البيانات."` (connection error, the catch
branch). -/
def connectionErrorMsg : Str := "خطأ أثناء الاتصال بقاعدة البيانات.".data

/-- Alert `تم استيراد ... اقتباسًا إلى قاعدة البيانات.` (remote import
succeeded; the interpolated count is elided). -/
def remoteSuccessMsg : Str := "تم استيراد اقتباسات إلى قاعدة البيانات.".data

/-- Alert `تم إضافة ... اقتباسًا (محليًا).` (local import succeeded; the
interpolated count is elided). -/
def localSuccessMsg : Str := "تم إضافة اقتباسات (محليًا).".data

/-- `confirmImport` (App.js lines 156-194).  `remote = none` is local-only
mode (no Supabase client configured); otherwise the collaborator behaves as
the given `InsertOutcome`.  Returns the new state and the alerts raised, in
order. -/
def confirmImport (remote : Option InsertOutcome) (s : AppState) :
    AppState × List Str :=
  if s.previewList.isEmpty then
    (s, [nothingToImportMsg])
  else
    match remote with
    | some (.errResult) =>
        ({ s with loading := false }, [saveErrorMsg])
    | some (.threw) =>
        ({ s with loading := false }, [connectionErrorMsg])
    | some (.ok (some rows)) =>
        ({ s with quotes := rows.map rowToQuote, previewList := [],
                  loading := false },
         [remoteSuccessMsg])
    | some (.ok none) =>
        -- success alert already shown, then `data.map` throws and the catch
        -- alerts; `setPreviewList([])` is skipped.
        ({ s with loading := false }, [remoteSuccessMsg, connectionErrorMsg])
    | none =>
        ({ s with quotes := s.previewList ++ s.quotes, previewList := [],
                  loading := false },
         [localSuccessMsg])

/- ===== Manual add (App.js lines 197-215) ===== -/

/-- The author actually stored by `addManual`: the default parameter covers a
missing argument, `author || "مجهول"` covers an empty string, and the result
is trimmed. -/
def manualAuthor (author : Option Str) : Str :=
  trim (match author with
        | none => unknownAuthor
        | some a => if a.isEmpty then unknownAuthor else a)

/-- `addManual` in local-only mode (App.js lines 197-199 and 212-214):
blank text is a silent no-op, otherwise the trimmed record is prepended. -/
def addManual (text : Option Str) (author : Option Str)
    (quotes : List Quote) : List Quote :=
  match text with
  | none => quotes
  | some t =>
      if (trim t).isEmpty then quotes
      else { text := trim t, author := manualAuthor author } :: quotes

/- ===== Claim C6 ===== -/

/-- Following the spec's words for comparison (claim C6): a haystack that is
literally "the concatenation of a quote's text and author", with no
separator. -/
def specConcatHaystack (q : Quote) : Str :=
  q.text ++ q.author

/-- The filter as the spec describes it, substring test over
`specConcatHaystack`. -/
def filteredSpecConcat (query : Str) (quotes : List Quote) : List Quote :=
  quotes.filter (fun q => strContains (trim query) (specConcatHaystack q))

/-- C6, counterexample: the code's haystack is `text + " " + author`, not the
plain concatenation of text and author.  On the quote `{text: "t", author:
"a"}` the query `"ta"` is a substring of the concatenation `"ta"` but not of
the code's haystack `"t a"`, so the code's filter drops the quote while the
claimed substring test keeps it. -/
theorem c6_counterexample :
    filtered ['t', 'a'] [⟨['t'], ['a']⟩] = [] ∧
    filteredSpecConcat ['t', 'a'] [⟨['t'], ['a']⟩] = [⟨['t'], ['a']⟩] := by
  decide

/-- C6 (amended): `filter(query)` is a pure, case-sensitive substring test
over the concatenation of a quote's text, a single space, and its author; its
result is a subsequence of the collection preserving relative order, the
empty query matches everything, and applying the filter again with the same
query returns the same result. -/
theorem c6_filter_algebra (query : Str) (quotes : List Quote) :
    filtered query quotes =
      quotes.filter (fun q => strContains (trim query) (q.text ++ ' ' :: q.author)) ∧
    (filtered query quotes).Sublist quotes ∧
    filtered [] quotes = quotes ∧
    filtered query (filtered query quotes) = filtered query quotes := by
  refine ⟨rfl, List.filter_sublist _, ?_, ?_⟩
  · refine List.filter_eq_self.mpr fun q _ => ?_
    show matchesQuery [] q = true
    unfold matchesQuery
    rw [show trim [] = ([] : Str) from rfl]
    exact strContains_nil _
  · exact List.filter_eq_self.mpr fun q hq => List.of_mem_filter hq

/- ===== Claim C9 ===== -/

/-- C9: the query is trimmed before matching, so `filter(query)` equals
`filter(trim(query))`, and a whitespace-only query matches every quote. -/
theorem c9_query_trimmed (query : Str) (quotes : List Quote) :
    filtered query quotes = filtered (trim query) quotes ∧
    ((∀ c ∈ query, isWs c = true) → filtered query quotes = quotes) := by
  constructor
  · show quotes.filter (matchesQuery query) = quotes.filter (matchesQuery (trim query))
    have h : matchesQuery (trim query) = matchesQuery query := by
      funext q
      unfold matchesQuery
      rw [trim_idempotent]
    rw [h]
  · intro h
    refine List.filter_eq_self.mpr fun q _ => ?_
    show matchesQuery query q = true
    unfold matchesQuery
    rw [trim_eq_nil_of_all_ws h]
    exact strContains_nil _

def wsSampleQuotes : List Quote := [⟨['a', 'b'], ['c']⟩, ⟨['x'], ['y']⟩]

/-- C9, witness: a two-space query matches every quote of a concrete
collection and agrees with the trimmed query. -/
theorem c9_witness :
    filtered [' ', ' '] wsSampleQuotes = wsSampleQuotes ∧
    filtered [' ', ' '] wsSampleQuotes = filtered (trim [' ', ' ']) wsSampleQuotes :=
  ⟨(c9_query_trimmed [' ', ' '] wsSampleQuotes).2 (by decide),
   (c9_query_trimmed [' ', ' '] wsSampleQuotes).1⟩

/- ===== Claim C4 ===== -/

/-- C4: `commit()` from Previewing with a failing persistence collaborator
(error result or thrown exception) keeps the preview batch intact, leaves the
quote collection unchanged, ends in Previewing, and surfaces a failure
alert. -/
theorem c4_commit_failure_preserves (s : AppState) (o : InsertOutcome)
    (hprev : s.previewList ≠ [])
    (hfail : o = .errResult ∨ o = .threw) :
    (confirmImport (some o) s).1.previewList = s.previewList ∧
    (confirmImport (some o) s).1.quotes = s.quotes ∧
    workflowState (confirmImport (some o) s).1 = .previewing ∧
    ((confirmImport (some o) s).2 = [saveErrorMsg] ∨
     (confirmImport (some o) s).2 = [connectionErrorMsg]) := by
  have hne : s.previewList.isEmpty = false := by
    cases h : s.previewList.isEmpty with
    | false => rfl
    | true => exact absurd (List.isEmpty_iff.mp h) hprev
  rcases hfail with rfl | rfl <;>
    refine ⟨?_, ?_, ?_, ?_⟩ <;>
    simp [confirmImport, workflowState, hne]

def sampleState : AppState :=
  ⟨[⟨['q'], ['r']⟩], [⟨['a'], ['b']⟩], false⟩

/-- C4, witness: a concrete failing commit. -/
theorem c4_witness :
    (confirmImport (some .errResult) sampleState).1.previewList =
      sampleState.previewList ∧
    (confirmImport (some .errResult) sampleState).1.quotes =
      sampleState.quotes ∧
    workflowState (confirmImport (some .errResult) sampleState).1 =
      .previewing ∧
    ((confirmImport (some .errResult) sampleState).2 = [saveErrorMsg] ∨
     (confirmImport (some .errResult) sampleState).2 = [connectionErrorMsg]) :=
  c4_commit_failure_preserves sampleState .errResult (by decide) (Or.inl rfl)

/- ===== Claim C5 ===== -/

/-- C5: `commit()` from Previewing in local-only mode ends in Empty with the
batch prepended to the prior collection in original order; counting
multiplicities, every committed candidate appears exactly as often as in the
batch plus the prior collection. -/
theorem c5_commit_local_success (s : AppState) (hprev : s.previewList ≠ []) :
    confirmImport none s =
      ({ quotes := s.previewList ++ s.quotes, previewList := [],
         loading := false }, [localSuccessMsg]) ∧
    workflowState (confirmImport none s).1 = .empty ∧
    ∀ q : Quote, (confirmImport none s).1.quotes.count q =
        s.previewList.count q + s.quotes.count q := by
  have hne : s.previewList.isEmpty = false := by
    cases h : s.previewList.isEmpty with
    | false => rfl
    | true => exact absurd (List.isEmpty_iff.mp h) hprev
  have hmain : confirmImport none s =
      ({ quotes := s.previewList ++ s.quotes, previewList := [],
         loading := false }, [localSuccessMsg]) := by
    simp [confirmImport, hne]
  refine ⟨hmain, ?_, ?_⟩
  · rw [hmain]
    rfl
  · intro q
    rw [hmain]
    exact List.count_append q s.previewList s.quotes

/-- C5, witness: a concrete local commit. -/
theorem c5_witness :
    confirmImport none sampleState =
      ({ quotes := sampleState.previewList ++ sampleState.quotes,
         previewList := [], loading := false }, [localSuccessMsg]) ∧
    workflowState (confirmImport none sampleState).1 = .empty :=
  ⟨(c5_commit_local_success sampleState (by decide)).1,
   (c5_commit_local_success sampleState (by decide)).2.1⟩

/- ===== Claim C7 ===== -/

/-- C7: entering a preview with an empty candidate list leaves the workflow
in the Empty state and the collection untouched; attempting the commit from
that state produces the "nothing to import" alert and no state change. -/
theorem c7_empty_preview_noop (s : AppState) (remote : Option InsertOutcome) :
    workflowState (startPreview s []) = .empty ∧
    (startPreview s []).quotes = s.quotes ∧
    confirmImport remote (startPreview s []) =
      (startPreview s [], [nothingToImportMsg]) :=
  ⟨rfl, rfl, rfl⟩

/- ===== Claim C10 ===== -/

/-- C10: manual add with missing, empty, or whitespace-only text is a silent
no-op; for non-blank text the stored record has trimmed text and trimmed,
unknown-defaulted author, prepended to the collection (local-only mode). -/
theorem c10_add_manual (text author : Option Str) (quotes : List Quote) :
    ((text = none ∨ ∃ t, text = some t ∧ trim t = []) →
        addManual text author quotes = quotes) ∧
    (∀ t, text = some t → trim t ≠ [] →
        addManual text author quotes =
          { text := trim t, author := manualAuthor author } :: quotes) := by
  constructor
  · rintro (rfl | ⟨t, rfl, ht⟩)
    · rfl
    · simp [addManual, ht]
  · rintro t rfl ht
    have hne : (trim t).isEmpty = false := by
      cases h : (trim t).isEmpty with
      | false => rfl
      | true => exact absurd (List.isEmpty_iff.mp h) ht
    simp [addManual, hne]

/-- C10, witness: whitespace-only text is dropped; `" hi "` with no author is
stored as `{text: "hi", author: "مجهول"}` at the front. -/
theorem c10_witness :
    addManual (some [' ', ' ']) (some ['x']) [] = [] ∧
    addManual (some [' ', 'h', 'i', ' ']) none [] =
      [⟨['h', 'i'], unknownAuthor⟩] := by
  constructor
  · exact (c10_add_manual (some [' ', ' ']) (some ['x']) []).1
      (Or.inr ⟨[' ', ' '], rfl, by decide⟩)
  · exact ((c10_add_manual (some [' ', 'h', 'i', ' ']) none []).2
      [' ', 'h', 'i', ' '] rfl (by decide)).trans (by decide)

/- ===== Claim C1 ===== -/

/-- Is this JSON value an object? -/
def Json.isObj : Json → Bool
  | .obj _ => true
  | _ => false

/-- Is this optional field value absent or a string (the shape of the
documented JSON import format)? -/
def isStrOpt : Option Json → Bool
  | none => true
  | some (.str _) => true
  | _ => false

/-- Project an optional JSON field to its string payload. -/
def asStrOpt : Option Json → Option Str
  | some (.str s) => some s
  | _ => none

/-- The candidate record described by claim C1 for an object whose optional
`text`/`author` fields are the strings `t`/`a`: text trimmed (missing reads
as empty), author trimmed and defaulted to the "unknown" sentinel exactly
when the field is missing or empty. -/
def strFieldQuote (t a : Option Str) : Quote :=
  { text := trim (t.getD []),
    author := if a = none ∨ a = some [] then unknownAuthor
              else trim (a.getD []) }

theorem textComponent_eq (t : Option Json) (ht : isStrOpt t = true) :
    trim (jsToString (jsOrD t [])) = trim (Option.getD (asStrOpt t) []) := by
  rcases t with _ | v
  · rfl
  · cases v with
    | str s => cases s <;> rfl
    | null => simp [isStrOpt] at ht
    | bool b => simp [isStrOpt] at ht
    | num n => simp [isStrOpt] at ht
    | arr xs => simp [isStrOpt] at ht
    | obj fs => simp [isStrOpt] at ht

theorem authorComponent_eq (a : Option Json) (ha : isStrOpt a = true) :
    trim (jsToString (jsOrD a unknownAuthor)) =
      (if asStrOpt a = none ∨ asStrOpt a = some [] then unknownAuthor
       else trim (Option.getD (asStrOpt a) [])) := by
  rcases a with _ | v
  · decide
  · cases v with
    | str s =>
        cases s with
        | nil => decide
        | cons c cs =>
            have hcond : ¬ (asStrOpt (some (.str (c :: cs))) = none ∨
                asStrOpt (some (.str (c :: cs))) = some []) := by
              simp [asStrOpt]
            rw [if_neg hcond]
            rfl
    | null => simp [isStrOpt] at ha
    | bool b => simp [isStrOpt] at ha
    | num n => simp [isStrOpt] at ha
    | arr xs => simp [isStrOpt] at ha
    | obj fs => simp [isStrOpt] at ha

theorem coerceJsonItem_strFields (i : Json) (hobj : i.isObj = true)
    (ht : isStrOpt (jsField i textKey) = true)
    (ha : isStrOpt (jsField i authorKey) = true) :
    coerceJsonItem i =
      .ok (strFieldQuote (asStrOpt (jsField i textKey))
                         (asStrOpt (jsField i authorKey))) := by
  cases i with
  | obj fs =>
      have hred : coerceJsonItem (Json.obj fs) = Except.ok
          (⟨trim (jsToString (jsOrD (jsField (Json.obj fs) textKey) [])),
            trim (jsToString (jsOrD (jsField (Json.obj fs) authorKey)
                    unknownAuthor))⟩ : Quote) := rfl
      rw [hred, textComponent_eq _ ht, authorComponent_eq _ ha]
      rfl
  | null => simp [Json.isObj] at hobj
  | bool b => simp [Json.isObj] at hobj
  | num n => simp [Json.isObj] at hobj
  | str s => simp [Json.isObj] at hobj
  | arr xs => simp [Json.isObj] at hobj

theorem coerceItems_ok_of (items : List Json) (f : Json → Quote)
    (h : ∀ i ∈ items, coerceJsonItem i = .ok (f i)) :
    coerceItems items = .ok (items.map f) := by
  induction items with
  | nil => rfl
  | cons i t ih =>
      have hi := h i (List.mem_cons_self i t)
      have ht := ih fun j hj => h j (List.mem_cons_of_mem i hj)
      simp only [coerceItems, hi, ht, List.map_cons]
      rfl

/-- C1: for a `.json` file whose content parses to an array of objects with
optional string `text`/`author` fields, the parser reports no error and the
preview list is exactly the array's elements, in order, each coerced to
trimmed text and trimmed author (author defaulted to the "unknown" sentinel
when the field is missing or empty), keeping precisely those whose trimmed
text is non-empty. -/
theorem c1_json_import (fileName : Str) (content : FileContent)
    (items : List Json)
    (hname : endsWithL (toLowerStr fileName) jsonExt = true)
    (hparse : content.jsonParse = some (.arr items))
    (hfields : ∀ i ∈ items, i.isObj = true ∧
        isStrOpt (jsField i textKey) = true ∧
        isStrOpt (jsField i authorKey) = true) :
    handleFileChange fileName content =
      ⟨[], (items.map (fun i =>
              strFieldQuote (asStrOpt (jsField i textKey))
                            (asStrOpt (jsField i authorKey)))).filter
            (fun q => !q.text.isEmpty)⟩ := by
  have hco : coerceItems items =
      .ok (items.map (fun i =>
            strFieldQuote (asStrOpt (jsField i textKey))
                          (asStrOpt (jsField i authorKey)))) :=
    coerceItems_ok_of items _ fun i hi =>
      coerceJsonItem_strFields i (hfields i hi).1 (hfields i hi).2.1
        (hfields i hi).2.2
  unfold handleFileChange
  simp only [hname, hparse, if_true, importJson, hco]

/-- The JSON scenario of the spec:
`[{"text":"a"},{"text":"","author":"x"},{"author":"y"}]`. -/
def jsonScenario : FileContent :=
  ⟨some (.arr [.obj [(textKey, .str ['a'])],
               .obj [(textKey, .str []), (authorKey, .str ['x'])],
               .obj [(authorKey, .str ['y'])]]), []⟩

/-- C1, witness: the spec scenario yields exactly
`[{text: "a", author: "مجهول"}]`. -/
theorem c1_witness :
    handleFileChange ('q' :: jsonExt) jsonScenario =
      ⟨[], [⟨['a'], unknownAuthor⟩]⟩ := by
  have h := c1_json_import ('q' :: jsonExt) jsonScenario _ (by decide) rfl
    (by decide)
  exact h.trans (by decide)

/- ===== Claim C2 ===== -/

/-- A lowercased name cannot end in both `".csv"` and `".json"` (their last
characters differ), so the CSV branch is reached exactly on the `.csv`
extension. -/
theorem endsWith_csv_not_json (n : Str) (h : endsWithL n csvExt = true) :
    endsWithL n jsonExt = false := by
  unfold endsWithL at h ⊢
  have hc : csvExt.reverse = 'v' :: 's' :: 'c' :: '.' :: [] := by decide
  have hj : jsonExt.reverse = 'n' :: 'o' :: 's' :: 'j' :: '.' :: [] := by decide
  rw [hc] at h
  rw [hj]
  cases hn : n.reverse with
  | nil => rw [hn] at h; exact absurd h (by decide)
  | cons b bs =>
      rw [hn] at h
      simp only [isPrefixL, Bool.and_eq_true, beq_iff_eq] at h
      obtain ⟨rfl, -⟩ := h
      have hnv : ('n' == 'v') = false := by decide
      simp [isPrefixL, hnv]

/-- C2: for a `.csv` file the parser reports no error and the preview list is
the Papa rows mapped through the first-two-columns coercion (trim the first
column for the text, trim the unknown-defaulted second column for the
author), in row order, keeping exactly the rows with non-empty trimmed text;
hence the preview list has at most as many entries as there are rows. -/
theorem c2_csv_import (fileName : Str) (content : FileContent)
    (hname : endsWithL (toLowerStr fileName) csvExt = true) :
    handleFileChange fileName content =
      ⟨[], (content.csvParse.map coerceCsvRow).filter
            (fun q => !q.text.isEmpty)⟩ ∧
    (handleFileChange fileName content).previewList.length ≤
      content.csvParse.length := by
  have hj := endsWith_csv_not_json _ hname
  have hmain : handleFileChange fileName content =
      ⟨[], (content.csvParse.map coerceCsvRow).filter
            (fun q => !q.text.isEmpty)⟩ := by
    unfold handleFileChange
    rw [hj, hname]
    rfl
  refine ⟨hmain, ?_⟩
  rw [hmain]
  calc ((content.csvParse.map coerceCsvRow).filter
          (fun q => !q.text.isEmpty)).length
      ≤ (content.csvParse.map coerceCsvRow).length :=
        List.length_filter_le _ _
    _ = content.csvParse.length := List.length_map _ _

/-- The CSV scenario of the spec: the decoded text `"hello,world\n,skip\nfoo,"`,
for which `Papa.parse(text, { header: false }).data` is
`[["hello","world"], ["","skip"], ["foo",""]]`. -/
def csvScenario : FileContent :=
  ⟨none, [[['h','e','l','l','o'], ['w','o','r','l','d']],
          [[], ['s','k','i','p']],
          [['f','o','o'], []]]⟩

/-- C2, witness: the spec's CSV scenario yields exactly
`[{text:"hello", author:"world"}, {text:"foo", author:"مجهول"}]`, with length
at most the row count. -/
theorem c2_witness :
    handleFileChange ('d' :: csvExt) csvScenario =
      ⟨[], [⟨['h','e','l','l','o'], ['w','o','r','l','d']⟩,
            ⟨['f','o','o'], unknownAuthor⟩]⟩ ∧
    (handleFileChange ('d' :: csvExt) csvScenario).previewList.length ≤
      csvScenario.csvParse.length := by
  have h := c2_csv_import ('d' :: csvExt) csvScenario (by decide)
  exact ⟨h.1.trans (by decide), h.2⟩

/- ===== Claim C8 ===== -/

theorem importJson_text_nonempty (p : Option Json) (q : Quote)
    (hq : q ∈ (importJson p).previewList) : q.text ≠ [] := by
  intro hnil
  cases p with
  | none => simp [importJson] at hq
  | some v =>
      cases v with
      | arr items =>
          cases hco : coerceItems items with
          | error e => simp [importJson, hco] at hq
          | ok l =>
              simp only [importJson, hco] at hq
              have hf := List.of_mem_filter hq
              rw [hnil] at hf
              simp at hf
      | null => simp [importJson] at hq
      | bool b => simp [importJson] at hq
      | num n => simp [importJson] at hq
      | str s => simp [importJson] at hq
      | obj fs => simp [importJson] at hq

theorem importCsv_text_nonempty (rows : List (List Str)) (q : Quote)
    (hq : q ∈ (importCsv rows).previewList) : q.text ≠ [] := by
  intro hnil
  have hf := List.of_mem_filter hq
  rw [hnil] at hf
  simp at hf

/-- C8: every candidate placed into the preview list by `handleFileChange` —
through either the JSON or the CSV path — has non-empty text: both paths
filter on non-empty trimmed text before storing the batch. -/
theorem c8_preview_nonempty_text (fileName : Str) (content : FileContent)
    (q : Quote) (hq : q ∈ (handleFileChange fileName content).previewList) :
    q.text ≠ [] := by
  unfold handleFileChange at hq
  split at hq
  · exact importJson_text_nonempty _ _ hq
  · split at hq
    · exact importCsv_text_nonempty _ _ hq
    · simp at hq

/-- C8, witness: a concrete preview entry produced by the CSV path has
non-empty text. -/
theorem c8_witness :
    (⟨['h','e','l','l','o'], ['w','o','r','l','d']⟩ : Quote) ∈
      (handleFileChange ('d' :: csvExt) csvScenario).previewList ∧
    (⟨['h','e','l','l','o'], ['w','o','r','l','d']⟩ : Quote).text ≠ [] :=
  ⟨by decide,
   c8_preview_nonempty_text ('d' :: csvExt) csvScenario _ (by decide)⟩

/- ===== Claim C3 ===== -/

def isNullJson : Json → Bool
  | .null => true
  | _ => false

/-- Does the file content parse (via `JSON.parse`) to an array? -/
def parsesAsArray (content : FileContent) : Bool :=
  match content.jsonParse with
  | some (.arr _) => true
  | _ => false

/-- The error condition exactly as claim C3 states it: unsupported extension,
or a `.json` name whose content does not parse as a JSON array. -/
def claimedErrorCond (fileName : Str) (content : FileContent) : Bool :=
  if endsWithL (toLowerStr fileName) jsonExt then !parsesAsArray content
  else if endsWithL (toLowerStr fileName) csvExt then false
  else true

/-- When does the JSON branch produce its format error: the content does not
parse as an array, or the parsed array contains a `null` element (the element
coercion throws and the catch rejects the whole batch). -/
def jsonErrorFlag : Option Json → Bool
  | some (.arr items) => items.any isNullJson
  | _ => true

/-- The error condition the code actually implements. -/
def codeErrorCond (fileName : Str) (content : FileContent) : Bool :=
  if endsWithL (toLowerStr fileName) jsonExt then
    jsonErrorFlag content.jsonParse
  else if endsWithL (toLowerStr fileName) csvExt then false
  else true

theorem coerceJsonItem_error_iff (i : Json) :
    coerceJsonItem i = .error () ↔ isNullJson i = true := by
  cases i <;> simp [coerceJsonItem, isNullJson]

theorem coerceItems_cons_error {i : Json} (t : List Json)
    (h : coerceJsonItem i = .error ()) :
    coerceItems (i :: t) = .error () := by
  unfold coerceItems
  rw [h]
  rfl

theorem coerceItems_cons_ok_error {i : Json} {t : List Json} {q : Quote}
    (hq : coerceJsonItem i = .ok q) (ht : coerceItems t = .error ()) :
    coerceItems (i :: t) = .error () := by
  unfold coerceItems
  rw [hq, ht]
  rfl

theorem coerceItems_cons_ok_ok {i : Json} {t : List Json} {q : Quote}
    {l : List Quote}
    (hq : coerceJsonItem i = .ok q) (ht : coerceItems t = .ok l) :
    coerceItems (i :: t) = .ok (q :: l) := by
  unfold coerceItems
  rw [hq, ht]
  rfl

theorem coerceItems_error_iff (items : List Json) :
    coerceItems items = .error () ↔ items.any isNullJson = true := by
  induction items with
  | nil => simp [coerceItems]
  | cons i t ih =>
      cases hci : coerceJsonItem i with
      | error e =>
          cases e
          have hni : isNullJson i = true := (coerceJsonItem_error_iff i).mp hci
          rw [coerceItems_cons_error t hci]
          simp [hni]
      | ok q =>
          have hni : isNullJson i = false := by
            cases hn : isNullJson i with
            | false => rfl
            | true =>
                rw [(coerceJsonItem_error_iff i).mpr hn] at hci
                exact absurd hci (by simp)
          cases hco : coerceItems t with
          | error e =>
              cases e
              rw [coerceItems_cons_ok_error hci hco]
              simp [hni, ih.mp hco]
          | ok l =>
              have hat : t.any isNullJson = false := by
                cases ha : t.any isNullJson with
                | false => rfl
                | true =>
                    rw [ih.mpr ha] at hco
                    exact absurd hco (by simp)
              rw [coerceItems_cons_ok_ok hci hco]
              simp [hni, hat]

theorem importJson_error_iff (p : Option Json) :
    ((importJson p).importError ≠ [] ↔ jsonErrorFlag p = true) ∧
    ((importJson p).importError ≠ [] → (importJson p).previewList = []) := by
  have hmsg : jsonInvalidMsg ≠ [] := by decide
  cases p with
  | none => exact ⟨⟨fun _ => rfl, fun _ => hmsg⟩, fun _ => rfl⟩
  | some v =>
      cases v with
      | arr items =>
          cases hco : coerceItems items with
          | error e =>
              cases e
              have hany : items.any isNullJson = true :=
                (coerceItems_error_iff items).mp hco
              have himp : importJson (some (.arr items)) =
                  ⟨jsonInvalidMsg, []⟩ := by
                simp only [importJson]
                rw [hco]
              rw [himp]
              exact ⟨⟨fun _ => hany, fun _ => hmsg⟩, fun _ => rfl⟩
          | ok l =>
              have hany : items.any isNullJson = false := by
                cases ha : items.any isNullJson with
                | false => rfl
                | true =>
                    rw [(coerceItems_error_iff items).mpr ha] at hco
                    exact absurd hco (by simp)
              have himp : importJson (some (.arr items)) =
                  ⟨[], l.filter (fun q => !q.text.isEmpty)⟩ := by
                simp only [importJson]
                rw [hco]
              rw [himp]
              refine ⟨⟨fun h => absurd rfl h, fun h => ?_⟩,
                      fun h => absurd rfl h⟩
              exact absurd (show items.any isNullJson = true from h)
                (by simp [hany])
      | null => exact ⟨⟨fun _ => rfl, fun _ => hmsg⟩, fun _ => rfl⟩
      | bool b => exact ⟨⟨fun _ => rfl, fun _ => hmsg⟩, fun _ => rfl⟩
      | num n => exact ⟨⟨fun _ => rfl, fun _ => hmsg⟩, fun _ => rfl⟩
      | str s => exact ⟨⟨fun _ => rfl, fun _ => hmsg⟩, fun _ => rfl⟩
      | obj fs => exact ⟨⟨fun _ => rfl, fun _ => hmsg⟩, fun _ => rfl⟩

/-- C3, counterexample: the file `"a.json"` with content `"[null]"` parses as
a JSON array, so the claim's "exactly when" predicts no error; the code's
element coercion throws on the `null` element and the parser reports the
format error. -/
theorem c3_counterexample :
    (handleFileChange ('a' :: jsonExt)
      ⟨some (.arr [.null]), []⟩).importError ≠ [] ∧
    claimedErrorCond ('a' :: jsonExt) ⟨some (.arr [.null]), []⟩ = false := by
  constructor
  · decide
  · decide

/-- C3 (amended): the parser is a total function that returns an error with
an empty candidate list exactly when the lowercased name ends in neither
".json" nor ".csv", or it ends in ".json" and the content does not parse as
a JSON array or the parsed array contains a null element (whose coercion
throws, rejected with the same format error). -/
theorem c3_error_characterization (fileName : Str) (content : FileContent) :
    ((handleFileChange fileName content).importError ≠ [] ↔
      codeErrorCond fileName content = true) ∧
    ((handleFileChange fileName content).importError ≠ [] →
      (handleFileChange fileName content).previewList = []) := by
  have hmsg : unsupportedMsg ≠ [] := by decide
  unfold handleFileChange codeErrorCond
  by_cases hj : endsWithL (toLowerStr fileName) jsonExt = true
  · rw [hj]
    simp only [if_true]
    exact importJson_error_iff content.jsonParse
  · rw [Bool.not_eq_true] at hj
    rw [hj]
    simp only [Bool.false_eq_true, if_false]
    by_cases hc : endsWithL (toLowerStr fileName) csvExt = true
    · rw [hc]
      simp only [if_true]
      exact ⟨by simp [importCsv], by simp [importCsv]⟩
    · rw [Bool.not_eq_true] at hc
      rw [hc]
      simp only [Bool.false_eq_true, if_false]
      exact ⟨⟨fun _ => by trivial, fun _ => hmsg⟩, fun _ => by trivial⟩

/-- C3, witness: a file with an unsupported extension gets an error and an
empty candidate list. -/
theorem c3_witness :
    (handleFileChange ['a'] ⟨none, []⟩).previewList = [] ∧
    codeErrorCond ['a'] ⟨none, []⟩ = true :=
  ⟨(c3_error_characterization ['a'] ⟨none, []⟩).2 (by decide),
   (c3_error_characterization ['a'] ⟨none, []⟩).1.mp (by decide)⟩

end QuoteApp
